import Mathlib

/-!
Verification of the clip sampler / example builder of
`src/datasets/image_datasets.py` (class `ActionSpotDataset`).

The Python code is shallowly embedded: Python `int` becomes `Int`,
`random.randint(lo, hi)` becomes a predicate describing the set of values it
can return, `dict[str, int]` lookup becomes `String → Option Int`, the numpy
label array becomes `List Int`, Python floor division `//` becomes `Int.fdiv`,
and exceptions become `Except`.
-/

namespace VLH

/-- An annotated event of a video: a frame index and a class-label string. -/
structure Event where
  frame : Int
  label : String
deriving DecidableEq, Repr

/-- One per-video annotation record, as stored in `clip_labels`. -/
structure Annotation where
  video : String
  num_frames : Int
  events : List Event
deriving DecidableEq, Repr

/-- The scalar constructor parameters of `ActionSpotDataset` that the sampling
logic reads (`clip_len`, `frame_sample_stride`, `dataset_len`, `dilate_len`,
`n_pad_frames`, `event_sample_rate`).  `random.random()` draws and
`event_sample_rate` are modelled as rationals. -/
structure Config where
  clip_len : Int
  frame_sample_stride : Int
  dataset_len : Int
  dilate_len : Int
  n_pad_frames : Int
  event_sample_rate : ℚ
deriving DecidableEq, Repr

/-- The four `assert` statements of `ActionSpotDataset.__init__`, in source
order; the first violated one raises with its message. -/
def initValidate (cfg : Config) : Except String Unit :=
  if ¬ cfg.clip_len > 0 then
    Except.error "clip len should be greater than 0"
  else if ¬ cfg.frame_sample_stride > 0 then
    Except.error "frame_sample_stride should be greater than 0"
  else if ¬ cfg.dataset_len > 0 then
    Except.error "dataset_len should be greater than 0"
  else if ¬ cfg.n_pad_frames ≥ 0 then
    Except.error "n_pad_frames should be greater equal than 0"
  else
    Except.ok ()

/-- `lower_bound` of `sample_event`:
`max(-n_pad_frames * frame_sample_stride, frame_idx - clip_len * frame_sample_stride + 1)`. -/
def lowerBound (cfg : Config) (frame_idx : Int) : Int :=
  max ((-cfg.n_pad_frames) * cfg.frame_sample_stride)
    (frame_idx - cfg.clip_len * cfg.frame_sample_stride + 1)

/-- `upper_bound` of `sample_event`:
`min(video_len - 1 + (n_pad_frames - clip_len) * frame_sample_stride, frame_idx)`. -/
def upperBound (cfg : Config) (video_len frame_idx : Int) : Int :=
  min (video_len - 1 + (cfg.n_pad_frames - cfg.clip_len) * cfg.frame_sample_stride)
    frame_idx

/-- The start frames `sample_event` can compute for a drawn event:
`random.randint(lower_bound, upper_bound)` (any integer of the closed
interval) when `upper_bound > lower_bound`, else exactly `lower_bound`. -/
def possibleEventStart (cfg : Config) (video_len frame_idx start_frame : Int) : Prop :=
  if upperBound cfg video_len frame_idx > lowerBound cfg frame_idx then
    lowerBound cfg frame_idx ≤ start_frame ∧ start_frame ≤ upperBound cfg video_len frame_idx
  else
    start_frame = lowerBound cfg frame_idx

instance (cfg : Config) (video_len frame_idx start_frame : Int) :
    Decidable (possibleEventStart cfg video_len frame_idx start_frame) :=
  inferInstanceAs (Decidable (ite _ _ _))

/-- The two `assert` statements at the end of `sample_event`, verbatim:
`start_frame <= frame_idx` and `start_frame + clip_len > frame_idx`
(note: the second one does not multiply `clip_len` by the stride). -/
def sampleEventAsserts (cfg : Config) (frame_idx start_frame : Int) : Prop :=
  start_frame ≤ frame_idx ∧ start_frame + cfg.clip_len > frame_idx

instance (cfg : Config) (frame_idx start_frame : Int) :
    Decidable (sampleEventAsserts cfg frame_idx start_frame) :=
  inferInstanceAs (Decidable (_ ∧ _))

/-- The two sampling strategies `get_sample` can dispatch to. -/
inductive Strategy where
  | event
  | clip
deriving DecidableEq, Repr

/-- The branch of `get_sample`:
`if self.event_sample_rate > 0 and random.random() > self.event_sample_rate`
chooses `sample_event`, else `sample_clip`; `draw` is the `random.random()`
result. -/
def getSampleStrategy (event_sample_rate draw : ℚ) : Strategy :=
  if event_sample_rate > 0 ∧ draw > event_sample_rate then Strategy.event
  else Strategy.clip

/-- `flat_labels`, built in `__init__`: for each video (in order) and each of
its events (in order), the pair `(video_index, event_frame)` is appended
whenever `event["frame"] < num_frames`. -/
def buildFlatLabels (clip_labels : List Annotation) : List (Nat × Int) :=
  clip_labels.enum.flatMap fun p =>
    (p.2.events.filter fun e => e.frame < p.2.num_frames).map fun e => (p.1, e.frame)

/-- `__init__` materialises `flat_labels` only under `event_sample_rate > 0`. -/
def flatLabels (cfg : Config) (clip_labels : List Annotation) : Option (List (Nat × Int)) :=
  if cfg.event_sample_rate > 0 then some (buildFlatLabels clip_labels) else none

/-- `label_index = (event_frame - start_frame) // frame_sample_stride`
(Python floor division). -/
def labelIndex (cfg : Config) (start_frame event_frame : Int) : Int :=
  (event_frame - start_frame).fdiv cfg.frame_sample_stride

/-- The loop `for i in range(a, b): labels[i] = c`, rendered positionally:
the entry at absolute index `j + k` (where `j` is the index of the list's
head) becomes `c` exactly when `a ≤ j + k < b`.  In `get_example` every loop
index lies inside `[0, clip_len)`, so the guard form is exact. -/
def writeWindow (a b c : Int) : Nat → List Int → List Int
  | _, [] => []
  | j, v :: rest =>
      (if a ≤ (j : Int) ∧ (j : Int) < b then c else v) :: writeWindow a b c (j + 1) rest

/-- The event loop of `get_example`'s label construction: for each event in
annotation order, if `label_index` lies in `[-dilate_len, clip_len + dilate_len)`
then the class of the event is looked up (a missing label raises `KeyError`)
and written over `[max(0, label_index - dilate_len), min(clip_len, label_index + dilate_len + 1))`. -/
def makeLabelsAux (classes : String → Option Int) (cfg : Config) (start_frame : Int) :
    List Event → List Int → Except String (List Int)
  | [], labels => Except.ok labels
  | e :: rest, labels =>
      if -cfg.dilate_len ≤ labelIndex cfg start_frame e.frame ∧
          labelIndex cfg start_frame e.frame < cfg.clip_len + cfg.dilate_len then
        match classes e.label with
        | none => Except.error e.label
        | some c =>
            makeLabelsAux classes cfg start_frame rest
              (writeWindow (max 0 (labelIndex cfg start_frame e.frame - cfg.dilate_len))
                (min cfg.clip_len (labelIndex cfg start_frame e.frame + cfg.dilate_len + 1))
                c 0 labels)
      else
        makeLabelsAux classes cfg start_frame rest labels

/-- Label construction of `get_example`: a zero-initialised (background)
array `np.zeros(clip_len)` threaded through the event loop. -/
def makeLabels (classes : String → Option Int) (cfg : Config) (start_frame : Int)
    (events : List Event) : Except String (List Int) :=
  makeLabelsAux classes cfg start_frame events (List.replicate cfg.clip_len.toNat 0)

/-- Modelled from the spec's label-mapping sentence: the event covers clip
position `j` iff its `label_index` lies in `[-dilate_len, clip_len + dilate_len)`
and `j` lies in the dilation window `[label_index - dilate_len, label_index + dilate_len]`. -/
def coversPos (cfg : Config) (start_frame : Int) (j : Nat) (e : Event) : Bool :=
  decide (-cfg.dilate_len ≤ labelIndex cfg start_frame e.frame ∧
    labelIndex cfg start_frame e.frame < cfg.clip_len + cfg.dilate_len ∧
    labelIndex cfg start_frame e.frame - cfg.dilate_len ≤ (j : Int) ∧
    (j : Int) < labelIndex cfg start_frame e.frame + cfg.dilate_len + 1)

/-- The last element of the list satisfying `p`, if any (last-write-wins
ordering of overlapping writes). -/
def lastMatch {α : Type} (p : α → Bool) : List α → Option α
  | [] => none
  | x :: rest =>
      match lastMatch p rest with
      | some y => some y
      | none => if p x then some x else none

/-- Modelled from the spec: the label at clip position `j` is the class of the
last event (in annotation order) whose dilation window covers `j`, and the
background class 0 when no event covers `j`. -/
def specLabelAt (classes : String → Option Int) (cfg : Config) (start_frame : Int)
    (events : List Event) (j : Nat) : Int :=
  match lastMatch (coversPos cfg start_frame j) events with
  | some e => (classes e.label).getD 0
  | none => 0

/-- `contains_event = int(labels.sum() > 0)` of `get_example`. -/
def containsEventFlag (labels : List Int) : Int :=
  if 0 < labels.sum then 1 else 0

/-- One produced example: the frame reader's result (`none` models the null
failure sentinel), the label array and the `contains_event` flag. -/
structure ExampleRec (F : Type) where
  frame : Option F
  label : List Int
  contains_event : Int
deriving DecidableEq, Repr

/-- The retry loop of `__getitem__`: `get_example` is re-run from scratch while
the reader keeps returning the null sentinel.  `ex n` is the example the
`n`-th `get_example` call (hence the `n`-th frame-reader call) would produce,
and `h` states that some call eventually succeeds.  The `index` argument is the
`unused` parameter of `__getitem__`. -/
def getItem {F : Type} (ex : Nat → ExampleRec F) (h : ∃ n, (ex n).frame.isSome)
    (index : Nat) : ExampleRec F :=
  ex (Nat.find h)

/-- How many times the retry loop of `__getitem__` has invoked `get_example`
(and thus the frame reader) when it returns. -/
def readerCalls {F : Type} (ex : Nat → ExampleRec F) (h : ∃ n, (ex n).frame.isSome) : Nat :=
  Nat.find h + 1

/-- A concrete example stream whose frame reader fails twice, then succeeds. -/
def exStream : Nat → ExampleRec Nat := fun n =>
  if n < 2 then ⟨none, [], 0⟩ else ⟨some 7, [], 1⟩

/-- The stream `exStream` eventually succeeds. -/
def exStream_succeeds : ∃ n, (exStream n).frame.isSome :=
  ⟨2, by decide⟩

/-- A single-video annotation list whose only event has the negative frame
index `-5`, strictly below its `num_frames = 10`. -/
def annNeg : List Annotation := [⟨"v", 10, [⟨-5, "goal"⟩]⟩]

/-- A class map that contains no label at all. -/
def classesNone : String → Option Int := fun _ => none

/-- A class map with the single label `"goal"`, of class index 1. -/
def classesG : String → Option Int := fun s => if s = "goal" then some 1 else none

/-! ### Helper lemmas -/

theorem writeWindow_length (a b c : Int) :
    ∀ (j : Nat) (l : List Int), (writeWindow a b c j l).length = l.length := by
  intro j l
  induction l generalizing j with
  | nil => rfl
  | cons v rest ih => simp [writeWindow, ih]

theorem writeWindow_getD (a b c : Int) :
    ∀ (j k : Nat) (l : List Int), k < l.length →
      (writeWindow a b c j l).getD k 0 =
        if a ≤ (j : Int) + (k : Int) ∧ (j : Int) + (k : Int) < b then c
        else l.getD k 0 := by
  intro j k l
  induction l generalizing j k with
  | nil => intro h; simp at h
  | cons v rest ih =>
    intro hk
    cases k with
    | zero => simp [writeWindow]
    | succ k =>
      simp only [writeWindow, List.getD_cons_succ]
      rw [ih (j + 1) k (by simpa using hk)]
      have hco : ((j + 1 : Nat) : Int) + (k : Int) = (j : Int) + ((k + 1 : Nat) : Int) := by
        push_cast
        ring
      rw [hco]

theorem writeWindow_mem (a b c : Int) :
    ∀ (j : Nat) (l : List Int) (x : Int), x ∈ writeWindow a b c j l → x = c ∨ x ∈ l := by
  intro j l
  induction l generalizing j with
  | nil => intro x hx; simp [writeWindow] at hx
  | cons v rest ih =>
    intro x hx
    simp only [writeWindow, List.mem_cons] at hx
    rcases hx with hx | hx
    · split at hx
      · exact Or.inl hx
      · exact Or.inr (by simp [hx])
    · rcases ih (j + 1) x hx with h | h
      · exact Or.inl h
      · exact Or.inr (by simp [h])

theorem lastMatch_eq_some {α : Type} (p : α → Bool) :
    ∀ (l : List α) (x : α), lastMatch p l = some x → x ∈ l ∧ p x = true := by
  intro l
  induction l with
  | nil => intro x hx; simp [lastMatch] at hx
  | cons y rest ih =>
    intro x hx
    rw [lastMatch] at hx
    split at hx
    · rename_i z hz
      injection hx with h
      subst h
      obtain ⟨hmem, hp⟩ := ih z hz
      exact ⟨List.mem_cons_of_mem _ hmem, hp⟩
    · split at hx
      · injection hx with h
        subst h
        exact ⟨List.mem_cons_self _ _, by assumption⟩
      · exact absurd hx (by simp)

theorem makeLabelsAux_length (classes : String → Option Int) (cfg : Config) (start_frame : Int) :
    ∀ (events : List Event) (init labels : List Int),
      makeLabelsAux classes cfg start_frame events init = Except.ok labels →
      labels.length = init.length := by
  intro events
  induction events with
  | nil =>
    intro init labels hok
    rw [makeLabelsAux] at hok
    injection hok with h
    rw [h]
  | cons e rest ih =>
    intro init labels hok
    rw [makeLabelsAux] at hok
    split at hok
    · split at hok
      · exact absurd hok (by simp)
      · exact (ih _ labels hok).trans (writeWindow_length _ _ _ _ _)
    · exact ih _ labels hok

theorem makeLabelsAux_getD (classes : String → Option Int) (cfg : Config) (start_frame : Int)
    (j : Nat) (hj : (j : Int) < cfg.clip_len) :
    ∀ (events : List Event) (init labels : List Int),
      makeLabelsAux classes cfg start_frame events init = Except.ok labels →
      j < init.length →
      labels.getD j 0 =
        match lastMatch (coversPos cfg start_frame j) events with
        | some e => (classes e.label).getD 0
        | none => init.getD j 0 := by
  intro events
  induction events with
  | nil =>
    intro init labels hok hjlen
    rw [makeLabelsAux] at hok
    injection hok with h
    rw [h, lastMatch]
  | cons e rest ih =>
    intro init labels hok hjlen
    rw [makeLabelsAux] at hok
    split at hok
    · rename_i hin
      split at hok
      · exact absurd hok (by simp)
      · rename_i c hcl
        rw [ih _ labels hok (by rw [writeWindow_length]; exact hjlen)]
        rw [lastMatch]
        cases hlm : lastMatch (coversPos cfg start_frame j) rest with
        | some z => rfl
        | none =>
          simp only []
          rw [writeWindow_getD _ _ _ 0 j init hjlen]
          simp only [Nat.cast_zero]
          have hguard : (max 0 (labelIndex cfg start_frame e.frame - cfg.dilate_len) ≤
                (0 : Int) + (j : Int) ∧
              (0 : Int) + (j : Int) <
                min cfg.clip_len (labelIndex cfg start_frame e.frame + cfg.dilate_len + 1)) ↔
              coversPos cfg start_frame j e = true := by
            rw [coversPos, decide_eq_true_eq]
            have hj0 : (0 : Int) ≤ (j : Int) := Int.natCast_nonneg j
            constructor
            · intro hg
              refine ⟨hin.1, hin.2, le_trans (le_max_right _ _) (by linarith [hg.1]), ?_⟩
              have := lt_of_lt_of_le hg.2 (min_le_right _ _)
              linarith
            · intro hc
              refine ⟨le_trans (max_le (by linarith) (by linarith [hc.2.2.1])) le_rfl, ?_⟩
              rw [lt_min_iff]
              exact ⟨by linarith, by linarith [hc.2.2.2]⟩
          by_cases hc : coversPos cfg start_frame j e = true
          · rw [if_pos (hguard.mpr hc), hc]
            simp [hcl]
          · rw [if_neg (fun hg => hc (hguard.mp hg))]
            simp only [hc]
            rw [if_neg (by simp [hc])]
    · rename_i hin
      rw [ih _ labels hok hjlen, lastMatch]
      cases hlm : lastMatch (coversPos cfg start_frame j) rest with
      | some z => rfl
      | none =>
        simp only []
        rw [if_neg ?_]
        rw [coversPos, decide_eq_true_eq]
        intro hc
        exact hin ⟨hc.1, hc.2.1⟩

theorem makeLabelsAux_error_iff (classes : String → Option Int) (cfg : Config)
    (start_frame : Int) :
    ∀ (events : List Event) (init : List Int),
      (∃ msg, makeLabelsAux classes cfg start_frame events init = Except.error msg) ↔
        ∃ e ∈ events,
          (-cfg.dilate_len ≤ labelIndex cfg start_frame e.frame ∧
            labelIndex cfg start_frame e.frame < cfg.clip_len + cfg.dilate_len) ∧
          classes e.label = none := by
  intro events
  induction events with
  | nil =>
    intro init
    simp [makeLabelsAux]
  | cons e rest ih =>
    intro init
    rw [makeLabelsAux]
    split
    · rename_i hin
      cases hcl : classes e.label with
      | none => simp [hin, hcl]
      | some c =>
        rw [ih]
        simp [hin, hcl]
    · rename_i hin
      rw [ih]
      simp only [List.mem_cons]
      constructor
      · rintro ⟨e', he', hcond⟩
        exact ⟨e', Or.inr he', hcond⟩
      · rintro ⟨e', he' | he', hcond⟩
        · subst he'
          exact absurd hcond.1 hin
        · exact ⟨e', he', hcond⟩

theorem makeLabelsAux_nonneg (classes : String → Option Int) (cfg : Config) (start_frame : Int)
    (hcls : ∀ s c, classes s = some c → 0 ≤ c) :
    ∀ (events : List Event) (init labels : List Int),
      makeLabelsAux classes cfg start_frame events init = Except.ok labels →
      (∀ x ∈ init, 0 ≤ x) → ∀ x ∈ labels, 0 ≤ x := by
  intro events
  induction events with
  | nil =>
    intro init labels hok hinit
    rw [makeLabelsAux] at hok
    injection hok with h
    rw [← h]
    exact hinit
  | cons e rest ih =>
    intro init labels hok hinit
    rw [makeLabelsAux] at hok
    split at hok
    · split at hok
      · exact absurd hok (by simp)
      · rename_i c hcl
        refine ih _ labels hok ?_
        intro x hx
        rcases writeWindow_mem _ _ _ _ _ x hx with h | h
        · rw [h]
          exact hcls _ _ hcl
        · exact hinit x h
    · exact ih _ labels hok hinit

theorem sum_pos_iff_of_nonneg (l : List Int) (h : ∀ x ∈ l, 0 ≤ x) :
    0 < l.sum ↔ ∃ x ∈ l, x ≠ 0 := by
  induction l with
  | nil => simp
  | cons v rest ih =>
    have hv : 0 ≤ v := h v (List.mem_cons_self _ _)
    have hrest : ∀ x ∈ rest, 0 ≤ x := fun x hx => h x (List.mem_cons_of_mem _ hx)
    have hsum : 0 ≤ rest.sum := List.sum_nonneg hrest
    rw [List.sum_cons]
    constructor
    · intro hpos
      by_cases hv0 : v = 0
      · subst hv0
        rw [zero_add] at hpos
        obtain ⟨x, hx, hxne⟩ := (ih hrest).mp hpos
        exact ⟨x, List.mem_cons_of_mem _ hx, hxne⟩
      · exact ⟨v, List.mem_cons_self _ _, hv0⟩
    · rintro ⟨x, hx, hxne⟩
      rcases List.mem_cons.mp hx with hx | hx
      · subst hx
        have : 0 < x := lt_of_le_of_ne hv (Ne.symm hxne)
        linarith
      · have : 0 < rest.sum := (ih hrest).mpr ⟨x, hx, hxne⟩
        linarith

/-! ### Claims -/

/-- C1: under a valid configuration, every start frame that `sample_event` can
compute for an event whose frame lies in `[0, num_frames)` satisfies
`start ≤ event_frame < start + clip_len * stride`, so the event frame lands
inside the sampled window. -/
theorem sample_event_window_invariant (cfg : Config) (video_len frame_idx start_frame : Int)
    (hclip : 0 < cfg.clip_len) (hstride : 0 < cfg.frame_sample_stride)
    (hpad : 0 ≤ cfg.n_pad_frames)
    (hf0 : 0 ≤ frame_idx) (hfv : frame_idx < video_len)
    (hs : possibleEventStart cfg video_len frame_idx start_frame) :
    start_frame ≤ frame_idx ∧
      frame_idx < start_frame + cfg.clip_len * cfg.frame_sample_stride := by
  have hK : 0 < cfg.clip_len * cfg.frame_sample_stride := mul_pos hclip hstride
  have hP : 0 ≤ cfg.n_pad_frames * cfg.frame_sample_stride := mul_nonneg hpad hstride.le
  unfold possibleEventStart at hs
  split at hs
  · obtain ⟨h1, h2⟩ := hs
    have hlo : frame_idx - cfg.clip_len * cfg.frame_sample_stride + 1 ≤ start_frame :=
      le_trans (le_max_right _ _) h1
    have hup : start_frame ≤ frame_idx := le_trans h2 (min_le_right _ _)
    exact ⟨hup, by linarith⟩
  · subst hs
    constructor
    · apply max_le
      · rw [neg_mul]
        linarith
      · linarith
    · have : frame_idx - cfg.clip_len * cfg.frame_sample_stride + 1 ≤ lowerBound cfg frame_idx :=
        le_max_right _ _
      linarith

/-- Witness for C1 at `clip_len = 2`, `stride = 1`, `n_pad_frames = 0`,
a video of 10 frames, an event at frame 3 and the drawn start 2. -/
theorem sample_event_window_invariant_witness :
    possibleEventStart ⟨2, 1, 1, 0, 0, 0⟩ 10 3 2 ∧
      ((2 : Int) ≤ 3 ∧ (3 : Int) < 2 + 2 * 1) :=
  ⟨by decide,
    sample_event_window_invariant ⟨2, 1, 1, 0, 0, 0⟩ 10 3 2
      (by decide) (by decide) (by decide) (by decide) (by decide) (by decide)⟩

/-- C5: with `clip_len = 10`, `frame_sample_stride = 2`, `n_pad_frames = 0`, a
video of 200 frames and an event at frame 100, the start frame 81 is a possible
draw of `sample_event` and satisfies the window invariant
`start ≤ event_frame < start + clip_len * stride`, yet the function's second
internal assertion `start_frame + clip_len > frame_idx` (which omits the
stride factor) is violated, so `sample_event` raises an `AssertionError`
instead of returning normally. -/
theorem sample_event_assert_failure :
    possibleEventStart ⟨10, 2, 1, 0, 0, 0⟩ 200 100 81 ∧
      ¬ sampleEventAsserts ⟨10, 2, 1, 0, 0, 0⟩ 100 81 ∧
      ((81 : Int) ≤ 100 ∧ (100 : Int) < 81 + 10 * 2) := by
  decide

/-- C4: `__init__` validation succeeds exactly on `clip_len > 0`,
`frame_sample_stride > 0`, `dataset_len > 0` and `n_pad_frames ≥ 0`, and
raises (a typed message-carrying error) exactly on the complementary
disjunction. -/
theorem initValidate_spec (cfg : Config) :
    ((∃ msg, initValidate cfg = Except.error msg) ↔
      (cfg.clip_len ≤ 0 ∨ cfg.frame_sample_stride ≤ 0 ∨
        cfg.dataset_len ≤ 0 ∨ cfg.n_pad_frames < 0)) ∧
    (initValidate cfg = Except.ok () ↔
      (0 < cfg.clip_len ∧ 0 < cfg.frame_sample_stride ∧
        0 < cfg.dataset_len ∧ 0 ≤ cfg.n_pad_frames)) := by
  unfold initValidate
  split_ifs <;> simp_all

/-- C7: for every rate and draw, `get_sample` dispatches to event-centred
sampling exactly when `event_sample_rate > 0` and the uniform draw strictly
exceeds it, and dispatches to uniform length-weighted clip sampling in every
other case — in particular whenever event-biased sampling is disabled
(`event_sample_rate ≤ 0`, e.g. the default `-1`) or the draw does not exceed
the rate.  The comparison direction is preserved exactly as written: for a
fixed draw, any positive rate below a rate that selects event sampling also
selects it (a higher rate selects event sampling for fewer draws). -/
theorem getSampleStrategy_spec (r r₁ r₂ draw : ℚ) (h₁ : 0 < r₁) (h₂ : r₁ ≤ r₂) :
    (getSampleStrategy r draw = Strategy.event ↔ 0 < r ∧ r < draw) ∧
    (getSampleStrategy r draw = Strategy.clip ↔ (r ≤ 0 ∨ draw ≤ r)) ∧
    (getSampleStrategy r₂ draw = Strategy.event →
      getSampleStrategy r₁ draw = Strategy.event) := by
  have hmono : getSampleStrategy r₂ draw = Strategy.event →
      getSampleStrategy r₁ draw = Strategy.event := by
    intro h
    unfold getSampleStrategy at h ⊢
    split at h
    · rename_i hcond
      rw [if_pos ⟨h₁, lt_of_le_of_lt h₂ hcond.2⟩]
    · exact absurd h (by simp)
  have hiff1 : getSampleStrategy r draw = Strategy.event ↔ 0 < r ∧ r < draw := by
    unfold getSampleStrategy
    split
    · rename_i hcond
      exact ⟨fun _ => ⟨hcond.1, hcond.2⟩, fun _ => rfl⟩
    · rename_i hcond
      constructor
      · intro h
        exact absurd h (by decide)
      · intro hc
        exact absurd ⟨hc.1, hc.2⟩ hcond
  have hiff2 : getSampleStrategy r draw = Strategy.clip ↔ (r ≤ 0 ∨ draw ≤ r) := by
    unfold getSampleStrategy
    split
    · rename_i hcond
      constructor
      · intro h
        exact absurd h (by decide)
      · intro hor
        rcases hor with h0 | h0
        · exact absurd hcond.1 (not_lt.mpr h0)
        · exact absurd hcond.2 (not_lt.mpr h0)
    · rename_i hcond
      constructor
      · intro _
        by_contra hor
        push_neg at hor
        exact hcond ⟨hor.1, hor.2⟩
      · intro _
        rfl
  exact ⟨hiff1, hiff2, hmono⟩

/-- Witness for C7 at the disabled default rate `-1` (uniform clip sampling is
chosen) with draw 7/8, and monotonicity at rates 1/2 ≤ 3/4. -/
theorem getSampleStrategy_spec_witness :
    (getSampleStrategy (-1) (7/8) = Strategy.event ↔
      0 < (-1 : ℚ) ∧ (-1 : ℚ) < 7/8) ∧
    (getSampleStrategy (-1) (7/8) = Strategy.clip ↔
      ((-1 : ℚ) ≤ 0 ∨ (7/8 : ℚ) ≤ -1)) ∧
    (getSampleStrategy (3/4) (7/8) = Strategy.event →
      getSampleStrategy (1/2) (7/8) = Strategy.event) :=
  getSampleStrategy_spec (-1) (1/2) (3/4) (7/8) (by norm_num) (by norm_num)

/-- C2: if the frame reader fails on the first two `get_example` calls and
succeeds on the third, `__getitem__` returns the third example and the reader
has been invoked exactly three times; no failure escapes to the caller. -/
theorem getItem_retry_spec {F : Type} (ex : Nat → ExampleRec F) (f : F)
    (h0 : (ex 0).frame = none) (h1 : (ex 1).frame = none)
    (h2 : (ex 2).frame = some f)
    (h : ∃ n, (ex n).frame.isSome) (index : Nat) :
    getItem ex h index = ex 2 ∧ readerCalls ex h = 3 := by
  have hfind : Nat.find h = 2 := by
    rw [Nat.find_eq_iff]
    refine ⟨by simp [h2], ?_⟩
    intro n hn
    interval_cases n <;> simp [h0, h1]
  exact ⟨by simp [getItem, hfind], by simp [readerCalls, hfind]⟩

/-- Witness for C2 on `exStream`. -/
theorem getItem_retry_spec_witness :
    getItem exStream exStream_succeeds 0 = exStream 2 ∧
      readerCalls exStream exStream_succeeds = 3 :=
  getItem_retry_spec exStream 7 rfl rfl rfl exStream_succeeds 0

/-- C10: `__getitem__` ignores its index argument: from identical sampler
state (the same example stream, i.e. the same random draws and frame-reader
behaviour) any two indices yield the same example. -/
theorem getItem_ignores_index {F : Type} (ex : Nat → ExampleRec F)
    (h : ∃ n, (ex n).frame.isSome) (i j : Nat) :
    getItem ex h i = getItem ex h j := rfl

/-- Witness for C10 on `exStream` at indices 5 and 99. -/
theorem getItem_ignores_index_witness :
    getItem exStream exStream_succeeds 5 = getItem exStream exStream_succeeds 99 :=
  getItem_ignores_index exStream exStream_succeeds 5 99

/-- C6 counterexample: the event at frame `-5` lies outside `[0, 10)` yet
`flat_labels` keeps it — the construction filters only on
`frame < num_frames` and admits negative frames. -/
theorem flatLabels_negative_frame_kept :
    buildFlatLabels annNeg = [(0, -5)] ∧ ¬ (0 : Int) ≤ -5 := by
  constructor
  · rfl
  · decide

/-- C6 (amended): `flat_labels` is materialised iff `event_sample_rate > 0`,
and it holds the pair `(i, f)` iff video `i` exists and has an event with
frame `f` satisfying `f < num_frames` (only the upper filter; events with
negative frames are kept). -/
theorem flatLabels_spec (cfg : Config) (clip_labels : List Annotation)
    (i : Nat) (f : Int) :
    ((flatLabels cfg clip_labels).isSome ↔ 0 < cfg.event_sample_rate) ∧
    ((i, f) ∈ buildFlatLabels clip_labels ↔
      ∃ a, clip_labels[i]? = some a ∧
        ∃ e ∈ a.events, e.frame = f ∧ e.frame < a.num_frames) := by
  constructor
  · unfold flatLabels
    split <;> simp_all
  · unfold buildFlatLabels
    simp only [List.mem_flatMap, List.mem_map, List.mem_filter]
    constructor
    · rintro ⟨p, hp, e, ⟨he, hlt⟩, heq⟩
      obtain ⟨heq1, heq2⟩ := Prod.mk.injEq .. ▸ heq
      refine ⟨p.2, ?_, e, he, heq2, by simpa using hlt⟩
      rw [← heq1]
      exact List.mem_enum_iff_getElem?.mp (by simpa using hp)
    · rintro ⟨a, ha, e, he, hf, hlt⟩
      exact ⟨(i, a), List.mk_mem_enum_iff_getElem?.mpr ha, e,
        ⟨he, by simpa using hlt⟩, by simp [hf]⟩

/-- C3: label construction starts from the zero (background) array of length
`clip_len` and applies the events in annotation order; whenever it returns
without a lookup failure, the entry at any clip position `j` is exactly the
class of the last event whose `label_index` lies in
`[-dilate_len, clip_len + dilate_len)` and whose dilation window covers `j`
(last-write-wins), and background 0 when no event covers `j`. -/
theorem get_example_labels_spec (classes : String → Option Int) (cfg : Config)
    (start_frame : Int) (events : List Event) (labels : List Int)
    (hok : makeLabels classes cfg start_frame events = Except.ok labels)
    (j : Nat) (hj : (j : Int) < cfg.clip_len) :
    labels.length = cfg.clip_len.toNat ∧
    labels.getD j 0 = specLabelAt classes cfg start_frame events j ∧
    ∀ e, lastMatch (coversPos cfg start_frame j) events = some e →
      ∃ c, classes e.label = some c ∧ labels.getD j 0 = c := by
  rw [makeLabels] at hok
  have hlen : labels.length = cfg.clip_len.toNat := by
    have := makeLabelsAux_length classes cfg start_frame events _ labels hok
    simpa using this
  have hjlen : j < (List.replicate cfg.clip_len.toNat (0 : Int)).length := by
    simp only [List.length_replicate]
    omega
  have hval := makeLabelsAux_getD classes cfg start_frame j hj events _ labels hok hjlen
  refine ⟨hlen, ?_, ?_⟩
  · rw [hval, specLabelAt]
    cases hlm : lastMatch (coversPos cfg start_frame j) events with
    | some e => rfl
    | none =>
      simp only []
      rw [List.getD_eq_getElem?_getD, List.getElem?_replicate]
      split <;> rfl
  · intro e hlm
    obtain ⟨hmem, hcov⟩ := lastMatch_eq_some _ events e hlm
    rw [coversPos, decide_eq_true_eq] at hcov
    cases hcl : classes e.label with
    | none =>
      exfalso
      obtain ⟨msg, herr⟩ := (makeLabelsAux_error_iff classes cfg start_frame events
        (List.replicate cfg.clip_len.toNat 0)).mpr ⟨e, hmem, ⟨hcov.1, hcov.2.1⟩, hcl⟩
      rw [hok] at herr
      exact absurd herr (by simp)
    | some c =>
      refine ⟨c, rfl, ?_⟩
      rw [hval, hlm]
      simp [hcl]

/-- Witness for C3: one event at frame 2, `clip_len = 5`, `stride = 1`,
`dilate_len = 1`, start 0: the produced array is `[0, 1, 1, 1, 0]` and at clip
position 2 the characterisation applies. -/
theorem get_example_labels_spec_witness :
    ([0, 1, 1, 1, 0] : List Int).length = (5 : Int).toNat ∧
      ([0, 1, 1, 1, 0] : List Int).getD 2 0 =
        specLabelAt classesG ⟨5, 1, 1, 1, 0, 0⟩ 0 [⟨2, "goal"⟩] 2 ∧
      ∀ e, lastMatch (coversPos ⟨5, 1, 1, 1, 0, 0⟩ 0 2) [⟨2, "goal"⟩] = some e →
        ∃ c, classesG e.label = some c ∧ ([0, 1, 1, 1, 0] : List Int).getD 2 0 = c :=
  get_example_labels_spec classesG ⟨5, 1, 1, 1, 0, 0⟩ 0 [⟨2, "goal"⟩] [0, 1, 1, 1, 0]
    rfl 2 (by decide)

/-- C8 counterexample: the only event's label `"goal"` is absent from the
class map, but its `label_index` 100 lies outside
`[-dilate_len, clip_len + dilate_len) = [0, 5)`, so label construction
returns the all-background array without any lookup failure. -/
theorem missing_label_no_failure :
    makeLabels classesNone ⟨5, 1, 1, 0, 0, 0⟩ 0 [⟨100, "goal"⟩] =
        Except.ok [0, 0, 0, 0, 0] ∧
      classesNone "goal" = none :=
  ⟨rfl, rfl⟩

/-- C8 (amended): label construction fails (with a `KeyError`, carrying the
missing label) iff the chosen video has some event whose label is absent from
the class map and whose `label_index` lies within
`[-dilate_len, clip_len + dilate_len)`; a missing label of an event outside
that range is never looked up. -/
theorem makeLabels_error_iff (classes : String → Option Int) (cfg : Config)
    (start_frame : Int) (events : List Event) :
    (∃ msg, makeLabels classes cfg start_frame events = Except.error msg) ↔
      ∃ e ∈ events,
        (-cfg.dilate_len ≤ labelIndex cfg start_frame e.frame ∧
          labelIndex cfg start_frame e.frame < cfg.clip_len + cfg.dilate_len) ∧
        classes e.label = none := by
  rw [makeLabels]
  exact makeLabelsAux_error_iff classes cfg start_frame events _

/-- C9: for every label array that label construction returns (under a class
map with non-negative class indices, as produced by `get_classes`),
`contains_event` is 1 iff some entry differs from the background class 0, and
0 iff all entries are background. -/
theorem contains_event_iff (classes : String → Option Int) (cfg : Config)
    (start_frame : Int) (events : List Event) (labels : List Int)
    (hok : makeLabels classes cfg start_frame events = Except.ok labels)
    (hcls : ∀ s c, classes s = some c → 0 ≤ c) :
    (containsEventFlag labels = 1 ↔ ∃ x ∈ labels, x ≠ 0) ∧
    (containsEventFlag labels = 0 ↔ ∀ x ∈ labels, x = 0) := by
  rw [makeLabels] at hok
  have hnn : ∀ x ∈ labels, 0 ≤ x := by
    refine makeLabelsAux_nonneg classes cfg start_frame hcls events _ labels hok ?_
    intro x hx
    rw [List.eq_of_mem_replicate hx]
  have hiff := sum_pos_iff_of_nonneg labels hnn
  by_cases hpos : 0 < labels.sum
  · have hflag : containsEventFlag labels = 1 := by
      rw [containsEventFlag]
      exact if_pos hpos
    obtain ⟨x, hx, hxne⟩ := hiff.mp hpos
    refine ⟨⟨fun _ => ⟨x, hx, hxne⟩, fun _ => hflag⟩, ⟨fun h0 => ?_, fun hall => ?_⟩⟩
    · rw [hflag] at h0
      exact absurd h0 (by norm_num)
    · exact absurd (hall x hx) hxne
  · have hflag : containsEventFlag labels = 0 := by
      rw [containsEventFlag]
      exact if_neg hpos
    have hall : ∀ x ∈ labels, x = 0 := by
      intro x hx
      by_contra hxne
      exact hpos (hiff.mpr ⟨x, hx, hxne⟩)
    refine ⟨⟨fun h1 => ?_, fun hex => ?_⟩, ⟨fun _ => hall, fun _ => hflag⟩⟩
    · rw [hflag] at h1
      exact absurd h1 (by norm_num)
    · obtain ⟨x, hx, hxne⟩ := hex
      exact absurd (hall x hx) hxne

/-- Witness for C9 on the concrete array `[0, 1, 1, 1, 0]` built by
`makeLabels` from one event at frame 2. -/
theorem contains_event_iff_witness :
    (containsEventFlag [0, 1, 1, 1, 0] = 1 ↔ ∃ x ∈ ([0, 1, 1, 1, 0] : List Int), x ≠ 0) ∧
    (containsEventFlag [0, 1, 1, 1, 0] = 0 ↔ ∀ x ∈ ([0, 1, 1, 1, 0] : List Int), x = 0) :=
  contains_event_iff classesG ⟨5, 1, 1, 1, 0, 0⟩ 0 [⟨2, "goal"⟩] [0, 1, 1, 1, 0]
    rfl
    (by
      intro s c h
      rw [classesG] at h
      split at h
      · injection h with h'
        omega
      · exact absurd h (by simp))

end VLH
